import Mathlib

/-!
Verification of the sketch/draw-and-composite engine of the SketchPad
component: in-memory stroke model, input tracking, rendering, export,
and surface configuration, shallowly embedded as pure Lean functions.
-/

/-- The drawing tool of a stroke: brush paints, eraser subtracts. -/
inductive Tool
  | brush
  | eraser
deriving DecidableEq, Repr

/-- A 2D coordinate in canvas pixel space. -/
structure Point where
  x : Int
  y : Int
deriving DecidableEq, Repr

instance : Inhabited Point := ⟨⟨0, 0⟩⟩

/-- One committed or in-progress stroke: ordered points plus paint parameters. -/
structure Stroke where
  points : List Point
  color : String
  width : Int
  tool : Tool
deriving DecidableEq, Repr

/-- The enumerated aspect-ratio choices of the canvas. -/
inductive AspectRatio
  | r1x1
  | r2x3
  | r3x2
deriving DecidableEq, Repr

/-- The fixed ratio-to-scale mapping used for the canvas width. -/
def ASPECT_RATIO_MAP : AspectRatio → Rat
  | .r1x1 => 1
  | .r2x3 => 2 / 3
  | .r3x2 => 3 / 2

/-- Canvas pixel width as computed in the JSX: 800 * ASPECT_RATIO_MAP[aspectRatio]. -/
def canvasPixelWidth (r : AspectRatio) : Rat := 800 * ASPECT_RATIO_MAP r

/-- Canvas pixel height as computed in the JSX: the constant 800. -/
def canvasPixelHeight (_ : AspectRatio) : Rat := 800

/-- The component state of SketchPad: the five useState cells plus the
aspect ratio owned by the parent App and passed down. -/
structure PadState where
  isDrawing : Bool
  strokes : List Stroke
  currentPath : Option Stroke
  activeTool : Tool
  brushColor : String
  brushSize : Int
  eraserSize : Int
  aspectRatio : AspectRatio
deriving DecidableEq, Repr

/-- Initial state: the useState initializers of SketchPad, and App's
initial aspect ratio of 3:2. -/
def initState : PadState :=
  { isDrawing := false
    strokes := []
    currentPath := none
    activeTool := Tool.brush
    brushColor := "#EF4444"
    brushSize := 5
    eraserSize := 20
    aspectRatio := AspectRatio.r3x2 }

/-- The canvas's bounding client rectangle offset on screen. -/
structure Rect where
  left : Int
  top : Int
deriving DecidableEq, Repr

/-- getCanvasCoordinates: translate a client-space event position into
canvas-local coordinates; yields the origin when the canvas ref is null. -/
def getCanvasCoordinates (canvas : Option Rect) (clientX clientY : Int) : Point :=
  match canvas with
  | none => ⟨0, 0⟩
  | some rect => ⟨clientX - rect.left, clientY - rect.top⟩

/-- handleMouseDown: set isDrawing, open a fresh one-point in-progress
stroke tagged with the current tool, color and tool-appropriate width. -/
def handleMouseDown (canvas : Option Rect) (clientX clientY : Int) (s : PadState) : PadState :=
  let point := getCanvasCoordinates canvas clientX clientY
  { s with
    isDrawing := true
    currentPath := some
      { points := [point]
        color := s.brushColor
        width := if s.activeTool = Tool.brush then s.brushSize else s.eraserSize
        tool := s.activeTool } }

/-- handleMouseMove: if not drawing or no current path, return unchanged;
otherwise append the translated point to the in-progress stroke. -/
def handleMouseMove (canvas : Option Rect) (clientX clientY : Int) (s : PadState) : PadState :=
  if ¬ s.isDrawing ∨ s.currentPath = none then s
  else
    let point := getCanvasCoordinates canvas clientX clientY
    { s with currentPath :=
        s.currentPath.map (fun prev => { prev with points := prev.points ++ [point] }) }

/-- handleMouseUp (also bound to mouse-leave and touch-end): commit the
in-progress stroke to the log if present, then clear it and stop drawing. -/
def handleMouseUp (s : PadState) : PadState :=
  let s1 :=
    match s.currentPath with
    | some cp => { s with strokes := s.strokes ++ [cp] }
    | none => s
  { s1 with currentPath := none, isDrawing := false }

/-- handleUndo: setStrokes(strokes.slice(0, -1)), i.e. drop the last stroke. -/
def handleUndo (s : PadState) : PadState :=
  { s with strokes := s.strokes.dropLast }

/-- handleClear: setStrokes([]). -/
def handleClear (s : PadState) : PadState :=
  { s with strokes := [] }

/-- The color-swatch button handler: setBrushColor(c) then setActiveTool(brush). -/
def selectColor (c : String) (s : PadState) : PadState :=
  { s with brushColor := c, activeTool := Tool.brush }

/-- The eraser button handler: setActiveTool(eraser). -/
def selectEraser (s : PadState) : PadState :=
  { s with activeTool := Tool.eraser }

/-- The value held by an HTML range input with attributes min and max: the
browser clamps any assigned value into [min, max], so the change events the
sliders deliver always carry an in-range value. -/
def rangeClampedValue (minV maxV v : Int) : Int :=
  max minV (min maxV v)

/-- The brush-size slider (range input, min 1 max 50) change handler:
setBrushSize(parseInt(e.target.value)) where the value is browser-clamped. -/
def brushSizeInput (v : Int) (s : PadState) : PadState :=
  { s with brushSize := rangeClampedValue 1 50 v }

/-- The eraser-size slider (range input, min 1 max 100) change handler:
setEraserSize(parseInt(e.target.value)) where the value is browser-clamped. -/
def eraserSizeInput (v : Int) (s : PadState) : PadState :=
  { s with eraserSize := rangeClampedValue 1 100 v }

/-- The aspect-ratio button handler: setAspectRatio(ratio). -/
def setAspectRatio (r : AspectRatio) (s : PadState) : PadState :=
  { s with aspectRatio := r }

/-- The discrete input events the component reacts to. -/
inductive Event
  | mouseDown (clientX clientY : Int)
  | mouseMove (clientX clientY : Int)
  | mouseUp
  | undo
  | clear
  | pickColor (c : String)
  | pickEraser
  | brushSlider (v : Int)
  | eraserSlider (v : Int)
  | pickRatio (r : AspectRatio)
deriving DecidableEq, Repr

/-- One event-handling step of the component. -/
def step (canvas : Option Rect) (s : PadState) (e : Event) : PadState :=
  match e with
  | .mouseDown cx cy => handleMouseDown canvas cx cy s
  | .mouseMove cx cy => handleMouseMove canvas cx cy s
  | .mouseUp => handleMouseUp s
  | .undo => handleUndo s
  | .clear => handleClear s
  | .pickColor c => selectColor c s
  | .pickEraser => selectEraser s
  | .brushSlider v => brushSizeInput v s
  | .eraserSlider v => eraserSizeInput v s
  | .pickRatio r => setAspectRatio r s

/-- Run a sequence of events from a state. -/
def run (canvas : Option Rect) (s : PadState) (es : List Event) : PadState :=
  es.foldl (step canvas) s

/-! ## Renderer: the draw callback as a trace of 2D-context operations -/

/-- One imperative operation on the canvas 2D context, as issued by draw. -/
inductive CanvasOp
  | clearRect (x y w h : Rat)
  | beginPath
  | setStrokeStyle (color : String)
  | setLineWidth (w : Int)
  | setLineCap (cap : String)
  | setLineJoin (join : String)
  | setGlobalCompositeOperation (mode : String)
  | moveTo (p : Point)
  | lineTo (p : Point)
  | strokePath
deriving DecidableEq, Repr

/-- The body of the forEach in draw, for one element of the combined array
[...strokes, currentPath]: skip a null entry or one with zero points, else
issue the path setup, the moveTo to points[0], a lineTo per point, and the
stroke call. -/
def strokeRenderOps (entry : Option Stroke) : List CanvasOp :=
  match entry with
  | none => []
  | some s =>
    if s.points.length = 0 then []
    else
      [CanvasOp.beginPath,
       CanvasOp.setStrokeStyle s.color,
       CanvasOp.setLineWidth s.width,
       CanvasOp.setLineCap "round",
       CanvasOp.setLineJoin "round",
       CanvasOp.setGlobalCompositeOperation
         (if s.tool = Tool.eraser then "destination-out" else "source-over"),
       CanvasOp.moveTo s.points.headI] ++
      s.points.map CanvasOp.lineTo ++
      [CanvasOp.strokePath]

/-- The draw callback: clear the whole canvas, process [...strokes,
currentPath] in order, then reset globalCompositeOperation to source-over. -/
def draw (w h : Rat) (strokes : List Stroke) (currentPath : Option Stroke) :
    List CanvasOp :=
  CanvasOp.clearRect 0 0 w h ::
    ((strokes.map some ++ [currentPath]).flatMap strokeRenderOps ++
     [CanvasOp.setGlobalCompositeOperation "source-over"])

/-! ## Spec-level renderer, for the refinement claim about draw -/

/-- An abstract rendering-port command in the spec's vocabulary:
clearSurface and paintConnectedLine(points, width, color, mode), plus the
required final reset of the compositing mode. -/
inductive RenderCmd
  | clearSurface (w h : Rat)
  | paintConnectedLine (points : List Point) (width : Int) (color : String)
      (mode : String) (cap : String) (join : String)
  | resetCompositing
deriving DecidableEq, Repr

/-- Spec wording: brush strokes paint with source-over blending, eraser
strokes with destination-out blending regardless of color. -/
def specCompositeMode : Tool → String
  | Tool.brush => "source-over"
  | Tool.eraser => "destination-out"

/-- Written from the spec's words (Renderer contract): clear the surface
entirely; iterate the committed log in insertion order then the in-progress
stroke if present as one combined ordered sequence; for each stroke with at
least one point paint a connected line through its points in order with
round caps and round joins at the stroke's width in its compositing mode;
finally reset the compositing mode. -/
def specRender (w h : Rat) (log : List Stroke) (inProgress : Option Stroke) :
    List RenderCmd :=
  RenderCmd.clearSurface w h ::
    (((log ++ inProgress.toList).filter (fun s => s.points.length != 0)).map
      (fun s =>
        RenderCmd.paintConnectedLine s.points s.width s.color
          (specCompositeMode s.tool) "round" "round") ++
     [RenderCmd.resetCompositing])

/-- Concretization of one abstract rendering command into the 2D-context
operations that realize it. -/
def cmdOps : RenderCmd → List CanvasOp
  | RenderCmd.clearSurface w h => [CanvasOp.clearRect 0 0 w h]
  | RenderCmd.paintConnectedLine pts width color mode cap join =>
      [CanvasOp.beginPath,
       CanvasOp.setStrokeStyle color,
       CanvasOp.setLineWidth width,
       CanvasOp.setLineCap cap,
       CanvasOp.setLineJoin join,
       CanvasOp.setGlobalCompositeOperation mode,
       CanvasOp.moveTo pts.headI] ++
      pts.map CanvasOp.lineTo ++
      [CanvasOp.strokePath]
  | RenderCmd.resetCompositing => [CanvasOp.setGlobalCompositeOperation "source-over"]

/-! ## Exporter: getCanvasData -/

/-- Abstract bitmap content of a canvas, built from the operations the
exporter performs: a freshly created canvas is blank (transparent), fillRect
paints an axis-aligned rectangle in a color, drawImage composites a source
bitmap at an offset without scaling. -/
inductive Bitmap
  | blank (w h : Rat)
  | fillRect (base : Bitmap) (x y w h : Rat) (color : String)
  | drawImage (base : Bitmap) (src : Bitmap) (dx dy : Rat)
deriving DecidableEq, Repr

/-- A canvas element: its pixel dimensions and its current rendered bitmap. -/
structure Canvas where
  width : Rat
  height : Rat
  bitmap : Bitmap
deriving DecidableEq, Repr

/-- document.createElement of a canvas with the given dimensions: blank. -/
def createTempCanvas (w h : Rat) : Canvas :=
  { width := w, height := h, bitmap := Bitmap.blank w h }

/-- getContext of kind 2d on a freshly created canvas. A browser returns
null only for an unsupported context kind or a prior conflicting context
request, neither of which can occur for a fresh 2d request, so this is
modelled as always succeeding with the canvas it draws on. -/
def getContext2D (c : Canvas) : Option Canvas := some c

/-- The encoded export artifact: toDataURL of kind image/png over a bitmap. -/
inductive ExportResult
  | png (img : Bitmap)
deriving DecidableEq, Repr

/-- The app background color used as the opaque export fill. -/
def appBackground : String := "#0D1117"

/-- getCanvasData: null when the canvas ref is null; otherwise create a
temp canvas of the same dimensions, fill it with the app background color,
draw the live canvas on top at the origin, and return it encoded as PNG.
Pure: it never writes to the live canvas or the stroke log. -/
def getCanvasData (canvasRef : Option Canvas) : Option ExportResult :=
  match canvasRef with
  | some canvas =>
    let tempCanvas := createTempCanvas canvas.width canvas.height
    match getContext2D tempCanvas with
    | none => none
    | some tempCtx =>
      let afterFill :=
        Bitmap.fillRect tempCtx.bitmap 0 0 tempCanvas.width tempCanvas.height appBackground
      let afterDraw := Bitmap.drawImage afterFill canvas.bitmap 0 0
      some (ExportResult.png afterDraw)
  | none => none

/-! ## Helper lemmas -/

/-- Iterating handleUndo iterates dropLast on the stroke log. -/
theorem handleUndo_iterate_strokes (n : Nat) (s : PadState) :
    (handleUndo^[n] s).strokes = (fun l : List Stroke => l.dropLast)^[n] s.strokes := by
  induction n generalizing s with
  | zero => rfl
  | succ n ih =>
    rw [Function.iterate_succ_apply, Function.iterate_succ_apply]
    exact ih (handleUndo s)

/-- Iterating dropLast as many times as the list is long empties it. -/
theorem dropLast_iterate_eq_nil {α : Type} (n : Nat) :
    ∀ l : List α, l.length ≤ n → (fun l : List α => l.dropLast)^[n] l = [] := by
  induction n with
  | zero =>
    intro l hl
    simp at hl
    simp [hl]
  | succ n ih =>
    intro l hl
    rw [Function.iterate_succ_apply]
    exact ih l.dropLast (by simp [List.length_dropLast]; omega)

/-! ## Claim theorems -/

/-- Claim C2: undo removes exactly the most-recently-appended stroke on a
non-empty log, is a no-op on an empty log, and applied once per committed
stroke empties the log. -/
theorem undo_removes_last_and_empties (s : PadState) (st : Stroke) :
    (handleUndo { s with strokes := s.strokes ++ [st] }).strokes = s.strokes
    ∧ handleUndo { s with strokes := [] } = { s with strokes := [] }
    ∧ (handleUndo^[s.strokes.length] s).strokes = [] := by
  refine ⟨?_, rfl, ?_⟩
  · simp [handleUndo]
  · rw [handleUndo_iterate_strokes]
    exact dropLast_iterate_eq_nil s.strokes.length s.strokes le_rfl

/-- Claim C8: an aspect-ratio change sets only the aspect ratio — the
committed stroke log and every other state field are untouched — and the
canvas pixel dimensions are the fixed function of the new ratio. -/
theorem aspect_change_only_resizes (s : PadState) (r : AspectRatio) :
    (setAspectRatio r s).strokes = s.strokes
    ∧ (setAspectRatio r s).aspectRatio = r
    ∧ (setAspectRatio r s).currentPath = s.currentPath
    ∧ (setAspectRatio r s).isDrawing = s.isDrawing
    ∧ (setAspectRatio r s).activeTool = s.activeTool
    ∧ (setAspectRatio r s).brushColor = s.brushColor
    ∧ (setAspectRatio r s).brushSize = s.brushSize
    ∧ (setAspectRatio r s).eraserSize = s.eraserSize
    ∧ canvasPixelWidth (setAspectRatio r s).aspectRatio = 800 * ASPECT_RATIO_MAP r
    ∧ canvasPixelHeight (setAspectRatio r s).aspectRatio = 800 :=
  ⟨rfl, rfl, rfl, rfl, rfl, rfl, rfl, rfl, rfl, rfl⟩

/-- Claim C9: selecting a brush color also activates the brush tool, from
any prior configuration. -/
theorem selectColor_activates_brush (s : PadState) (c : String) :
    (selectColor c s).activeTool = Tool.brush ∧ (selectColor c s).brushColor = c :=
  ⟨rfl, rfl⟩

/-- Claim C10: undo and clear touch only the committed stroke log; the
in-progress stroke, drawing flag, tool, color, widths and aspect ratio all
survive both operations unchanged. -/
theorem undo_clear_touch_only_log (s : PadState) :
    (handleUndo s).strokes = s.strokes.dropLast
    ∧ (handleUndo s).currentPath = s.currentPath
    ∧ (handleUndo s).isDrawing = s.isDrawing
    ∧ (handleUndo s).activeTool = s.activeTool
    ∧ (handleUndo s).brushColor = s.brushColor
    ∧ (handleUndo s).brushSize = s.brushSize
    ∧ (handleUndo s).eraserSize = s.eraserSize
    ∧ (handleUndo s).aspectRatio = s.aspectRatio
    ∧ (handleClear s).strokes = []
    ∧ (handleClear s).currentPath = s.currentPath
    ∧ (handleClear s).isDrawing = s.isDrawing
    ∧ (handleClear s).activeTool = s.activeTool
    ∧ (handleClear s).brushColor = s.brushColor
    ∧ (handleClear s).brushSize = s.brushSize
    ∧ (handleClear s).eraserSize = s.eraserSize
    ∧ (handleClear s).aspectRatio = s.aspectRatio :=
  ⟨rfl, rfl, rfl, rfl, rfl, rfl, rfl, rfl, rfl, rfl, rfl, rfl, rfl, rfl, rfl, rfl⟩

/-- Claim C3: export returns null exactly when the canvas ref is null, and
otherwise returns the PNG encoding of a same-sized off-screen surface
filled with the opaque app background with the live bitmap drawn on top at
the origin, unscaled. -/
theorem getCanvasData_null_iff_uninitialized :
    (∀ canvasRef : Option Canvas, getCanvasData canvasRef = none ↔ canvasRef = none)
    ∧ (∀ c : Canvas, getCanvasData (some c) =
        some (ExportResult.png (Bitmap.drawImage
          (Bitmap.fillRect (Bitmap.blank c.width c.height) 0 0 c.width c.height appBackground)
          c.bitmap 0 0))) := by
  constructor
  · intro canvasRef
    cases canvasRef <;> simp [getCanvasData, getContext2D, createTempCanvas]
  · intro c
    rfl

/-- One processed entry of the combined array emits exactly the
concretization of the spec's paintConnectedLine command, or nothing when
the stroke has zero points. -/
theorem strokeRenderOps_some (s : Stroke) :
    strokeRenderOps (some s) =
      if s.points.length != 0 then
        cmdOps (RenderCmd.paintConnectedLine s.points s.width s.color
          (specCompositeMode s.tool) "round" "round")
      else [] := by
  rcases s with ⟨pts, color, width, tool⟩
  cases tool <;> cases pts <;>
    simp [strokeRenderOps, cmdOps, specCompositeMode]

/-- Processing a list of committed strokes emits the concatenation of the
concretized paint commands of its strokes with at least one point. -/
theorem flatMap_strokeRenderOps (log : List Stroke) :
    (log.map some).flatMap strokeRenderOps =
      ((log.filter (fun s => s.points.length != 0)).map
        (fun s => RenderCmd.paintConnectedLine s.points s.width s.color
          (specCompositeMode s.tool) "round" "round")).flatMap cmdOps := by
  induction log with
  | nil => rfl
  | cons a l ih =>
    rw [List.map_cons, List.flatMap_cons, List.filter_cons, strokeRenderOps_some]
    cases h : (a.points.length != 0) <;> simp [h, ih]

/-- Claim C1: the draw callback is the concretization of the spec-level
rendering algorithm — clear the surface, paint the committed log in order
then the in-progress stroke as one combined sequence skipping zero-point
strokes, each stroke as one connected round-capped round-joined line at
its width with source-over mode for brush and destination-out for eraser,
then reset compositing to source-over. -/
theorem draw_refines_specRender (w h : Rat) (log : List Stroke) (cur : Option Stroke) :
    draw w h log cur = (specRender w h log cur).flatMap cmdOps := by
  cases cur with
  | none =>
    rw [draw, specRender, List.flatMap_cons, List.flatMap_append,
      List.flatMap_append, flatMap_strokeRenderOps]
    simp [cmdOps, strokeRenderOps]
  | some c =>
    rw [draw, specRender, List.flatMap_cons, List.flatMap_append,
      List.flatMap_append, flatMap_strokeRenderOps]
    simp only [Option.toList_some, List.filter_append, List.map_append,
      List.flatMap_append, strokeRenderOps_some]
    cases h : (c.points.length != 0) <;> simp [h, cmdOps, strokeRenderOps_some]

/-! ## Trace invariants -/

/-- Invariant for claim C4: every committed stroke and any in-progress
stroke has a non-empty point sequence. -/
def NonEmptyInv (s : PadState) : Prop :=
  (∀ st ∈ s.strokes, st.points ≠ []) ∧ (∀ c, s.currentPath = some c → c.points ≠ [])

/-- Every event handler preserves the non-empty-points invariant. -/
theorem step_preserves_nonEmptyInv (canvas : Option Rect) (s : PadState) (e : Event)
    (h : NonEmptyInv s) : NonEmptyInv (step canvas s e) := by
  obtain ⟨h1, h2⟩ := h
  cases e with
  | mouseDown cx cy =>
    refine ⟨h1, ?_⟩
    intro c hc
    simp only [step, handleMouseDown, Option.some.injEq] at hc
    simp [← hc]
  | mouseMove cx cy =>
    by_cases hg : ¬ s.isDrawing ∨ s.currentPath = none
    · simp only [step, handleMouseMove, if_pos hg]
      exact ⟨h1, h2⟩
    · push_neg at hg
      obtain ⟨cp, hcp⟩ := Option.ne_none_iff_exists'.mp hg.2
      have hstep : step canvas s (Event.mouseMove cx cy) =
          { s with
            currentPath :=
              some ({ cp with points := cp.points ++ [getCanvasCoordinates canvas cx cy] }) } := by
        simp [step, handleMouseMove, hcp, hg.1]
      rw [hstep]
      refine ⟨h1, ?_⟩
      intro c hc
      simp only [Option.some.injEq] at hc
      simp [← hc]
  | mouseUp =>
    refine ⟨?_, by simp [step, handleMouseUp]⟩
    intro st hst
    cases hcp : s.currentPath with
    | none =>
      simp only [step, handleMouseUp, hcp] at hst
      exact h1 st hst
    | some cp =>
      simp only [step, handleMouseUp, hcp, List.mem_append, List.mem_singleton] at hst
      rcases hst with hst | hst
      · exact h1 st hst
      · exact hst ▸ h2 cp hcp
  | undo =>
    refine ⟨?_, h2⟩
    intro st hst
    exact h1 st ((List.dropLast_sublist s.strokes).subset hst)
  | clear => exact ⟨by simp [step, handleClear], h2⟩
  | pickColor c => exact ⟨h1, h2⟩
  | pickEraser => exact ⟨h1, h2⟩
  | brushSlider v => exact ⟨h1, h2⟩
  | eraserSlider v => exact ⟨h1, h2⟩
  | pickRatio r => exact ⟨h1, h2⟩

/-- Running any event sequence preserves the non-empty-points invariant. -/
theorem run_preserves_nonEmptyInv (canvas : Option Rect) (es : List Event) :
    ∀ s : PadState, NonEmptyInv s → NonEmptyInv (run canvas s es) := by
  induction es with
  | nil => exact fun s h => h
  | cons e es ih =>
    intro s h
    exact ih (step canvas s e) (step_preserves_nonEmptyInv canvas s e h)

/-- Claim C4: along every event sequence from the initial state, every
stroke in the committed log has at least one point. -/
theorem committed_strokes_nonempty (canvas : Option Rect) (es : List Event) :
    ∀ st ∈ (run canvas initState es).strokes, 1 ≤ st.points.length := by
  intro st hst
  have hinv : NonEmptyInv (run canvas initState es) :=
    run_preserves_nonEmptyInv canvas es initState ⟨by simp [initState], by simp [initState]⟩
  exact List.length_pos.mpr (hinv.1 st hst)

/-- Witness for claim C4: a concrete one-gesture trace commits a stroke,
and the theorem yields its positive point count. -/
theorem committed_strokes_nonempty_witness :
    ((⟨[⟨5, 5⟩], "#EF4444", 5, Tool.brush⟩ : Stroke) ∈
        (run (some ⟨0, 0⟩) initState [Event.mouseDown 5 5, Event.mouseUp]).strokes)
    ∧ 1 ≤ ([(⟨5, 5⟩ : Point)]).length :=
  ⟨by decide,
   committed_strokes_nonempty (some ⟨0, 0⟩) [Event.mouseDown 5 5, Event.mouseUp]
     ⟨[⟨5, 5⟩], "#EF4444", 5, Tool.brush⟩ (by decide)⟩

/-- Invariant for claim C6: the configured widths stay within the sliders'
bounds and every stored stroke width is positive and bounded. -/
def WidthInv (s : PadState) : Prop :=
  1 ≤ s.brushSize ∧ s.brushSize ≤ 50
  ∧ 1 ≤ s.eraserSize ∧ s.eraserSize ≤ 100
  ∧ (∀ st ∈ s.strokes, 1 ≤ st.width ∧ st.width ≤ 100)
  ∧ (∀ c, s.currentPath = some c → 1 ≤ c.width ∧ c.width ≤ 100)

/-- Every event handler preserves the width-bounds invariant. -/
theorem step_preserves_widthInv (canvas : Option Rect) (s : PadState) (e : Event)
    (h : WidthInv s) : WidthInv (step canvas s e) := by
  obtain ⟨hb1, hb2, he1, he2, hs, hc⟩ := h
  cases e with
  | mouseDown cx cy =>
    refine ⟨hb1, hb2, he1, he2, hs, ?_⟩
    intro c hcp
    simp only [step, handleMouseDown, Option.some.injEq] at hcp
    rw [← hcp]
    by_cases ht : s.activeTool = Tool.brush <;> simp [ht] <;> omega
  | mouseMove cx cy =>
    by_cases hg : ¬ s.isDrawing ∨ s.currentPath = none
    · simp only [step, handleMouseMove, if_pos hg]
      exact ⟨hb1, hb2, he1, he2, hs, hc⟩
    · push_neg at hg
      obtain ⟨cp, hcp⟩ := Option.ne_none_iff_exists'.mp hg.2
      have hstep : step canvas s (Event.mouseMove cx cy) =
          { s with
            currentPath :=
              some ({ cp with points := cp.points ++ [getCanvasCoordinates canvas cx cy] }) } := by
        simp [step, handleMouseMove, hcp, hg.1]
      rw [hstep]
      refine ⟨hb1, hb2, he1, he2, hs, ?_⟩
      intro c hcw
      simp only [Option.some.injEq] at hcw
      rw [← hcw]
      exact hc cp hcp
  | mouseUp =>
    cases hcp : s.currentPath with
    | none =>
      have hstep : step canvas s Event.mouseUp =
          { s with currentPath := none, isDrawing := false } := by
        simp [step, handleMouseUp, hcp]
      rw [hstep]
      exact ⟨hb1, hb2, he1, he2, hs, by simp⟩
    | some cp =>
      have hstep : step canvas s Event.mouseUp =
          { s with
            strokes := s.strokes ++ [cp]
            currentPath := none
            isDrawing := false } := by
        simp [step, handleMouseUp, hcp]
      rw [hstep]
      refine ⟨hb1, hb2, he1, he2, ?_, by simp⟩
      intro st hst
      simp only [List.mem_append, List.mem_singleton] at hst
      rcases hst with hst | hst
      · exact hs st hst
      · exact hst ▸ hc cp hcp
  | undo =>
    refine ⟨hb1, hb2, he1, he2, ?_, hc⟩
    intro st hst
    exact hs st ((List.dropLast_sublist s.strokes).subset hst)
  | clear => exact ⟨hb1, hb2, he1, he2, by simp [step, handleClear], hc⟩
  | pickColor c => exact ⟨hb1, hb2, he1, he2, hs, hc⟩
  | pickEraser => exact ⟨hb1, hb2, he1, he2, hs, hc⟩
  | brushSlider v =>
    refine ⟨?_, ?_, he1, he2, hs, hc⟩ <;>
      simp [step, brushSizeInput, rangeClampedValue]
  | eraserSlider v =>
    refine ⟨hb1, hb2, ?_, ?_, hs, hc⟩ <;>
      simp [step, eraserSizeInput, rangeClampedValue]
  | pickRatio r => exact ⟨hb1, hb2, he1, he2, hs, hc⟩

/-- Running any event sequence preserves the width-bounds invariant. -/
theorem run_preserves_widthInv (canvas : Option Rect) (es : List Event) :
    ∀ s : PadState, WidthInv s → WidthInv (run canvas s es) := by
  induction es with
  | nil => exact fun s h => h
  | cons e es ih =>
    intro s h
    exact ih (step canvas s e) (step_preserves_widthInv canvas s e h)

/-- Claim C6: along every event sequence from the initial state, the
brush and eraser widths stay clamped inside their slider bounds, and every
committed stroke's stored width is positive and bounded — an out-of-range
width is never stored. -/
theorem widths_always_bounded (canvas : Option Rect) (es : List Event) :
    1 ≤ (run canvas initState es).brushSize ∧ (run canvas initState es).brushSize ≤ 50
    ∧ 1 ≤ (run canvas initState es).eraserSize ∧ (run canvas initState es).eraserSize ≤ 100
    ∧ ∀ st ∈ (run canvas initState es).strokes, 1 ≤ st.width ∧ st.width ≤ 100 := by
  have hinv : WidthInv (run canvas initState es) :=
    run_preserves_widthInv canvas es initState
      ⟨by simp [initState], by simp [initState], by simp [initState], by simp [initState],
       by simp [initState], by simp [initState]⟩
  exact ⟨hinv.1, hinv.2.1, hinv.2.2.1, hinv.2.2.2.1, hinv.2.2.2.2.1⟩

/-- Witness for claim C6: a negative slider input is clamped to 1 and the
stroke then committed stores width 1, inside the bounds. -/
theorem widths_always_bounded_witness :
    ((⟨[⟨1, 1⟩], "#EF4444", 1, Tool.brush⟩ : Stroke) ∈
        (run (some ⟨0, 0⟩) initState
          [Event.brushSlider (-7), Event.mouseDown 1 1, Event.mouseUp]).strokes)
    ∧ 1 ≤ (1 : Int) ∧ (1 : Int) ≤ 100 :=
  ⟨by decide,
   (widths_always_bounded (some ⟨0, 0⟩)
       [Event.brushSlider (-7), Event.mouseDown 1 1, Event.mouseUp]).2.2.2.2
     ⟨[⟨1, 1⟩], "#EF4444", 1, Tool.brush⟩ (by decide)⟩

/-- Folding move events over an open in-progress stroke appends exactly the
translated coordinates, in order, and changes nothing else. -/
theorem foldl_mouseMove_appends (canvas : Option Rect) (ps : List (Int × Int)) :
    ∀ (s : PadState) (cp : Stroke), s.isDrawing = true → s.currentPath = some cp →
      ps.foldl (fun st q => handleMouseMove canvas q.1 q.2 st) s =
        { s with
          currentPath :=
            some ({ cp with
              points := cp.points ++ ps.map (fun q => getCanvasCoordinates canvas q.1 q.2) }) } := by
  induction ps with
  | nil =>
    intro s cp hd hcp
    simp only [List.foldl_nil, List.map_nil, List.append_nil]
    have hcpe : ({ cp with points := cp.points } : Stroke) = cp := rfl
    rw [hcpe, ← hcp]
  | cons q ps ih =>
    intro s cp hd hcp
    rw [List.foldl_cons]
    have hmove : handleMouseMove canvas q.1 q.2 s =
        { s with
          currentPath :=
            some ({ cp with points := cp.points ++ [getCanvasCoordinates canvas q.1 q.2] }) } := by
      simp [handleMouseMove, hcp, hd]
    rw [hmove]
    rw [ih _ _ (by simp [hd]) rfl]
    simp

/-- Claim C5: a gesture of pointer-begin, k pointer-moves and pointer-end
commits one stroke whose points are the translated begin point followed by
the k translated move points, so its point count is k + 1; each move on an
open stroke appends exactly one point, and a move with no open stroke is a
no-op. -/
theorem gesture_point_count (canvas : Option Rect) (cx cy : Int)
    (ps : List (Int × Int)) (s : PadState) :
    (handleMouseUp (ps.foldl (fun st q => handleMouseMove canvas q.1 q.2 st)
        (handleMouseDown canvas cx cy s))).strokes
      = s.strokes ++
        [⟨getCanvasCoordinates canvas cx cy ::
            ps.map (fun q => getCanvasCoordinates canvas q.1 q.2),
          s.brushColor,
          if s.activeTool = Tool.brush then s.brushSize else s.eraserSize,
          s.activeTool⟩]
    ∧ ((handleMouseUp (ps.foldl (fun st q => handleMouseMove canvas q.1 q.2 st)
          (handleMouseDown canvas cx cy s))).strokes.getLast?.map
        (fun st => st.points.length)) = some (ps.length + 1)
    ∧ (∀ c : Stroke,
        handleMouseMove canvas cx cy { s with isDrawing := true, currentPath := some c }
          = { s with
              isDrawing := true
              currentPath :=
                some ({ c with points := c.points ++ [getCanvasCoordinates canvas cx cy] }) })
    ∧ handleMouseMove canvas cx cy { s with currentPath := none }
        = { s with currentPath := none } := by
  have hfold := foldl_mouseMove_appends canvas ps (handleMouseDown canvas cx cy s)
    ⟨[getCanvasCoordinates canvas cx cy], s.brushColor,
      if s.activeTool = Tool.brush then s.brushSize else s.eraserSize, s.activeTool⟩
    rfl rfl
  have hmain : (handleMouseUp (ps.foldl (fun st q => handleMouseMove canvas q.1 q.2 st)
      (handleMouseDown canvas cx cy s))).strokes
      = s.strokes ++
        [⟨getCanvasCoordinates canvas cx cy ::
            ps.map (fun q => getCanvasCoordinates canvas q.1 q.2),
          s.brushColor,
          if s.activeTool = Tool.brush then s.brushSize else s.eraserSize,
          s.activeTool⟩] := by
    rw [hfold]
    simp [handleMouseUp, handleMouseDown]
  refine ⟨hmain, ?_, ?_, ?_⟩
  · rw [hmain]
    simp
  · intro c
    simp [handleMouseMove]
  · simp [handleMouseMove]

/-- Claim C7 counterexample: from the initial state, begin at (1,1) and
move to (2,2) — the tracker is Drawing with the two-point in-progress
stroke — then a second pointer-begin at (3,3) changes the state: it
replaces the open in-progress stroke by a fresh one-point stroke. -/
theorem second_mousedown_changes_state :
    handleMouseDown (some ⟨0, 0⟩) 3 3
        (handleMouseMove (some ⟨0, 0⟩) 2 2 (handleMouseDown (some ⟨0, 0⟩) 1 1 initState))
      ≠ handleMouseMove (some ⟨0, 0⟩) 2 2 (handleMouseDown (some ⟨0, 0⟩) 1 1 initState)
    ∧ (handleMouseMove (some ⟨0, 0⟩) 2 2
        (handleMouseDown (some ⟨0, 0⟩) 1 1 initState)).isDrawing = true
    ∧ (handleMouseMove (some ⟨0, 0⟩) 2 2
        (handleMouseDown (some ⟨0, 0⟩) 1 1 initState)).currentPath
        = some ⟨[⟨1, 1⟩, ⟨2, 2⟩], "#EF4444", 5, Tool.brush⟩
    ∧ (handleMouseDown (some ⟨0, 0⟩) 3 3
        (handleMouseMove (some ⟨0, 0⟩) 2 2
          (handleMouseDown (some ⟨0, 0⟩) 1 1 initState))).currentPath
        = some ⟨[⟨3, 3⟩], "#EF4444", 5, Tool.brush⟩ := by
  decide

/-- Claim C7 amended: a second pointer-begin while already Drawing is not
ignored — it keeps the committed log and stays in Drawing, but discards the
open in-progress stroke uncommitted and replaces it with a fresh one-point
stroke seeded from the new event under the current configuration. -/
theorem second_mousedown_replaces (canvas : Option Rect) (cx cy : Int)
    (s : PadState) (c : Stroke) :
    handleMouseDown canvas cx cy { s with isDrawing := true, currentPath := some c }
      = { s with
          isDrawing := true
          currentPath :=
            some ⟨[getCanvasCoordinates canvas cx cy], s.brushColor,
              if s.activeTool = Tool.brush then s.brushSize else s.eraserSize,
              s.activeTool⟩ } :=
  rfl
